import Mathlib

/-!
Verification of the Count Aggregation Engine of
`scripts/filecounter/filecounter.py` (AgPipeline/moving-transformer-plotmerge).

The Python source is shallowly embedded:

* Python dictionaries become ordered association lists (`lookupA`/`insertA`),
  matching the spec's "ordered mapping of metric name → metric definition".
* The filesystem (`os.path.exists`, `os.path.isdir`, `os.listdir`,
  `os.path.join`) becomes an explicit tree `FSNode` together with a current
  working directory; relative paths resolve against the cwd, exactly as in
  CPython.  Note that the source calls `os.path.isdir(date_content)` on the
  bare entry name, which CPython resolves against the working directory — the
  embedding is faithful to that.
* `re.match` (anchored-at-start search) becomes a Brzozowski-derivative
  matcher `rematch` over a regex AST; `re.fullmatch` semantics is `matchHere`,
  and the inductive proposition `RMatch` is the regex language.
* Python exceptions become `Except PyErr`; a call of a 4-parameter function
  with 3 positional arguments is a `TypeError`, a missing dict key a
  `KeyError`, `tuple[0]` on an empty tuple an `IndexError`, `os.listdir` on a
  non-directory an `OSError`.
* `pandas` dataframes become `List Row` (the `date` column plus one value per
  metric column); `read_csv`/`to_csv` round-tripping of `YYYY-MM-DD` date
  strings is modelled as the identity, and `sort_values(by date)` as a merge
  sort on the date strings (lexicographic = chronological for this format).
* `datetime` values produced by `strptime('%Y-%m-%d')` are modelled by their
  proleptic day ordinals (`ℤ`); `timedelta(days=i)` addition is `+ i` and
  subtraction `.days` is ordinal subtraction, which is exact because both
  endpoints are midnights.
-/

/-! ## Ordered association lists (Python dict) -/

/-- `d.get(k)` on a Python dict, modelled as first match in an assoc list. -/
def lookupA {α : Type} : List (String × α) → String → Option α
  | [], _ => none
  | (k, v) :: rest, key => if k = key then some v else lookupA rest key

/-- `d[k] = v` on a Python dict: overwrite in place, else append. -/
def insertA {α : Type} : List (String × α) → String → α → List (String × α)
  | [], key, v => [(key, v)]
  | (k, w) :: rest, key, v =>
    if k = key then (k, v) :: rest else (k, w) :: insertA rest key v

/-- `k in d` on a Python dict. -/
def memA {α : Type} (d : List (String × α)) (key : String) : Bool :=
  (lookupA d key).isSome

/-! ## Regular expressions (`re` module) -/

/-- Regex abstract syntax: enough to express the patterns the file counter
uses (`re.match(target_def["regex"], file)`). -/
inductive Regex where
  | emptyset : Regex
  | eps : Regex
  | char : Char → Regex
  | any : Regex
  | alt : Regex → Regex → Regex
  | concat : Regex → Regex → Regex
  | star : Regex → Regex
deriving DecidableEq

/-- Does the regex accept the empty string? -/
def Regex.nullable : Regex → Bool
  | .emptyset => false
  | .eps => true
  | .char _ => false
  | .any => false
  | .alt r1 r2 => r1.nullable || r2.nullable
  | .concat r1 r2 => r1.nullable && r2.nullable
  | .star _ => true

/-- Brzozowski derivative of a regex by one character. -/
def Regex.deriv : Regex → Char → Regex
  | .emptyset, _ => .emptyset
  | .eps, _ => .emptyset
  | .char c, a => if c = a then .eps else .emptyset
  | .any, _ => .eps
  | .alt r1 r2, a => .alt (r1.deriv a) (r2.deriv a)
  | .concat r1 r2, a =>
    if r1.nullable then .alt (.concat (r1.deriv a) r2) (r2.deriv a)
    else .concat (r1.deriv a) r2
  | .star r, a => .concat (r.deriv a) (.star r)

/-- `re.fullmatch` semantics: the regex matches the whole string. -/
def matchHere (r : Regex) : List Char → Bool
  | [] => r.nullable
  | c :: cs => matchHere (r.deriv c) cs

/-- `re.match` semantics: the regex matches some prefix of the string
(anchored at the start, not required to reach the end). -/
def rematch (r : Regex) : List Char → Bool
  | [] => r.nullable
  | c :: cs => r.nullable || rematch (r.deriv c) cs

/-- Literal-string pattern, e.g. the pattern `"foo"`. -/
def Regex.lit (s : String) : Regex :=
  s.data.foldr (fun c acc => .concat (.char c) acc) .eps

/-- The language of a regex, as an inductive proposition. -/
inductive RMatch : Regex → List Char → Prop where
  | eps : RMatch .eps []
  | char (c : Char) : RMatch (.char c) [c]
  | any (c : Char) : RMatch .any [c]
  | altl {r1 r2 s} : RMatch r1 s → RMatch (.alt r1 r2) s
  | altr {r1 r2 s} : RMatch r2 s → RMatch (.alt r1 r2) s
  | concat {r1 r2 s1 s2} : RMatch r1 s1 → RMatch r2 s2 →
      RMatch (.concat r1 r2) (s1 ++ s2)
  | starNil {r} : RMatch (.star r) []
  | starCons {r s1 s2} : RMatch r s1 → RMatch (.star r) s2 →
      RMatch (.star r) (s1 ++ s2)

theorem rmatch_alt_inv {r1 r2 : Regex} {s : List Char}
    (h : RMatch (.alt r1 r2) s) : RMatch r1 s ∨ RMatch r2 s := by
  cases h with
  | altl h => exact Or.inl h
  | altr h => exact Or.inr h

theorem rmatch_concat_inv {r1 r2 : Regex} {s : List Char}
    (h : RMatch (.concat r1 r2) s) :
    ∃ s1 s2, s = s1 ++ s2 ∧ RMatch r1 s1 ∧ RMatch r2 s2 := by
  cases h with
  | concat h1 h2 => exact ⟨_, _, rfl, h1, h2⟩

theorem nullable_iff_rmatch_nil (r : Regex) : r.nullable = true ↔ RMatch r [] := by
  induction r with
  | emptyset =>
    simp only [Regex.nullable, Bool.false_eq_true, false_iff]
    intro h; cases h
  | eps =>
    simp only [Regex.nullable, true_iff]; exact .eps
  | char c =>
    simp only [Regex.nullable, Bool.false_eq_true, false_iff]
    intro h; cases h
  | any =>
    simp only [Regex.nullable, Bool.false_eq_true, false_iff]
    intro h; cases h
  | alt r1 r2 ih1 ih2 =>
    simp only [Regex.nullable, Bool.or_eq_true, ih1, ih2]
    constructor
    · rintro (h | h)
      · exact .altl h
      · exact .altr h
    · exact rmatch_alt_inv
  | concat r1 r2 ih1 ih2 =>
    simp only [Regex.nullable, Bool.and_eq_true, ih1, ih2]
    constructor
    · rintro ⟨h1, h2⟩
      exact RMatch.concat h1 h2
    · intro h
      obtain ⟨s1, s2, hs, h1, h2⟩ := rmatch_concat_inv h
      obtain ⟨hs1, hs2⟩ := List.append_eq_nil.mp hs.symm
      exact ⟨hs1 ▸ h1, hs2 ▸ h2⟩
  | star r ih =>
    simp only [Regex.nullable, true_iff]
    exact .starNil

theorem rmatch_star_cons_inv {r : Regex} {s : List Char} (h : RMatch (.star r) s) :
    ∀ c s', s = c :: s' →
      ∃ s1 s2, s' = s1 ++ s2 ∧ RMatch r (c :: s1) ∧ RMatch (.star r) s2 := by
  generalize hr : Regex.star r = r0 at h
  revert hr
  induction h with
  | eps => intro hr; exact Regex.noConfusion hr
  | char c => intro hr; exact Regex.noConfusion hr
  | any c => intro hr; exact Regex.noConfusion hr
  | altl h ih => intro hr; exact Regex.noConfusion hr
  | altr h ih => intro hr; exact Regex.noConfusion hr
  | concat h1 h2 ih1 ih2 => intro hr; exact Regex.noConfusion hr
  | starNil => intro hr c s' hs; exact List.noConfusion hs
  | @starCons r1 s1 s2 h1 h2 ih1 ih2 =>
    intro hr c s' hs
    injection hr with hr'
    subst hr'
    cases s1 with
    | nil =>
      simp only [List.nil_append] at hs
      exact ih2 rfl c s' hs
    | cons a t =>
      injection hs with hac hts
      subst hac
      exact ⟨t, s2, hts.symm, h1, h2⟩

theorem rmatch_deriv (r : Regex) (c : Char) (s : List Char) :
    RMatch (r.deriv c) s ↔ RMatch r (c :: s) := by
  induction r generalizing s with
  | emptyset => constructor <;> (intro h; cases h)
  | eps => constructor <;> (intro h; cases h)
  | char c' =>
    simp only [Regex.deriv]
    by_cases hc : c' = c
    · subst hc
      rw [if_pos rfl]
      constructor
      · intro h; cases h; exact .char c'
      · intro h; cases h; exact .eps
    · rw [if_neg hc]
      constructor
      · intro h; cases h
      · intro h; cases h; exact absurd rfl hc
  | any =>
    simp only [Regex.deriv]
    constructor
    · intro h; cases h; exact .any c
    · intro h; cases h; exact .eps
  | alt r1 r2 ih1 ih2 =>
    simp only [Regex.deriv]
    constructor
    · intro h
      rcases rmatch_alt_inv h with h | h
      · exact .altl ((ih1 _).mp h)
      · exact .altr ((ih2 _).mp h)
    · intro h
      rcases rmatch_alt_inv h with h | h
      · exact .altl ((ih1 _).mpr h)
      · exact .altr ((ih2 _).mpr h)
  | concat r1 r2 ih1 ih2 =>
    simp only [Regex.deriv]
    by_cases hn : r1.nullable
    · rw [if_pos hn]
      constructor
      · intro h
        rcases rmatch_alt_inv h with h | h
        · obtain ⟨s1, s2, rfl, ha, hb⟩ := rmatch_concat_inv h
          exact RMatch.concat ((ih1 _).mp ha) hb
        · exact RMatch.concat ((nullable_iff_rmatch_nil r1).mp hn) ((ih2 _).mp h)
      · intro h
        obtain ⟨s1, s2, hs, ha, hb⟩ := rmatch_concat_inv h
        cases s1 with
        | nil =>
          simp only [List.nil_append] at hs
          subst hs
          exact .altr ((ih2 _).mpr hb)
        | cons a t =>
          injection hs with hac hts
          subst hac
          subst hts
          exact .altl (RMatch.concat ((ih1 _).mpr ha) hb)
    · rw [if_neg hn]
      constructor
      · intro h
        obtain ⟨s1, s2, rfl, ha, hb⟩ := rmatch_concat_inv h
        exact RMatch.concat ((ih1 _).mp ha) hb
      · intro h
        obtain ⟨s1, s2, hs, ha, hb⟩ := rmatch_concat_inv h
        cases s1 with
        | nil =>
          exact absurd ((nullable_iff_rmatch_nil r1).mpr ha) hn
        | cons a t =>
          injection hs with hac hts
          subst hac
          subst hts
          exact RMatch.concat ((ih1 _).mpr ha) hb
  | star r ih =>
    simp only [Regex.deriv]
    constructor
    · intro h
      obtain ⟨s1, s2, rfl, ha, hb⟩ := rmatch_concat_inv h
      exact RMatch.starCons ((ih _).mp ha) hb
    · intro h
      obtain ⟨s1, s2, hs, ha, hb⟩ := rmatch_star_cons_inv h c s rfl
      exact hs ▸ RMatch.concat ((ih _).mpr ha) hb

theorem matchHere_iff_rmatch (r : Regex) (s : List Char) :
    matchHere r s = true ↔ RMatch r s := by
  induction s generalizing r with
  | nil => exact nullable_iff_rmatch_nil r
  | cons c cs ih =>
    simpa only [matchHere] using (ih (r.deriv c)).trans (rmatch_deriv r c cs)

/-- `re.match` (`rematch`) succeeds exactly when the pattern's language
contains some leading segment of the string: anchored at the start, but not
required to reach the end. -/
theorem rematch_iff_exists_split (r : Regex) (s : List Char) :
    rematch r s = true ↔ ∃ p q, s = p ++ q ∧ RMatch r p := by
  induction s generalizing r with
  | nil =>
    simp only [rematch]
    rw [nullable_iff_rmatch_nil]
    constructor
    · intro h; exact ⟨[], [], rfl, h⟩
    · rintro ⟨p, q, hs, hp⟩
      obtain ⟨rfl, rfl⟩ := List.append_eq_nil.mp hs.symm
      exact hp
  | cons c cs ih =>
    simp only [rematch, Bool.or_eq_true]
    rw [nullable_iff_rmatch_nil, ih]
    constructor
    · rintro (h | ⟨p, q, rfl, hp⟩)
      · exact ⟨[], c :: cs, rfl, h⟩
      · exact ⟨c :: p, q, rfl, (rmatch_deriv r c p).mp hp⟩
    · rintro ⟨p, q, hs, hp⟩
      cases p with
      | nil => exact Or.inl hp
      | cons a t =>
        injection hs with hac hts
        subst hac
        exact Or.inr ⟨t, q, hts, (rmatch_deriv r c t).mpr hp⟩

instance {ε α : Type} [DecidableEq ε] [DecidableEq α] : DecidableEq (Except ε α) := by
  intro x y
  cases x <;> cases y <;>
    first
      | (exact isFalse (by intro h; exact Except.noConfusion h))
      | (rename_i a b
         exact if h : a = b then isTrue (by rw [h]) else
            isFalse (by intro hc; exact h (by cases hc; rfl)))

/-- Python exceptions the embedded code can raise. -/
inductive PyErr where
  | typeError : PyErr
  | keyError : PyErr
  | indexError : PyErr
  | osError : PyErr
deriving DecidableEq

/-! ## Filesystem model (`os`, `os.path`) -/

/-- A filesystem path: `os.path.join` segments, absolute or relative. -/
structure FPath where
  absolute : Bool
  comps : List String
deriving DecidableEq

/-- `os.path.join(p, c)` for a single extra component. -/
def FPath.join (p : FPath) (c : String) : FPath :=
  ⟨p.absolute, p.comps ++ [c]⟩

/-- A node of the filesystem tree: a plain file or a directory with named
entries. -/
inductive FSNode where
  | file : FSNode
  | dir (entries : List (String × FSNode)) : FSNode

/-- Walk a component list down from a node. -/
def FSNode.find : FSNode → List String → Option FSNode
  | n, [] => some n
  | .file, _ :: _ => none
  | .dir es, c :: rest =>
    match lookupA es c with
    | none => none
    | some ch => ch.find rest

/-- The filesystem: a root tree plus the process working directory, against
which relative paths resolve (as in CPython). -/
structure FS where
  root : FSNode
  cwd : List String

def FS.resolve (fs : FS) (p : FPath) : List String :=
  if p.absolute then p.comps else fs.cwd ++ p.comps

def FS.lookup (fs : FS) (p : FPath) : Option FSNode :=
  fs.root.find (fs.resolve p)

/-- `os.path.exists`. -/
def FS.pexists (fs : FS) (p : FPath) : Bool :=
  (fs.lookup p).isSome

/-- `os.path.isdir`. -/
def FS.isdir (fs : FS) (p : FPath) : Bool :=
  match fs.lookup p with
  | some (.dir _) => true
  | _ => false

/-- `os.listdir`: entry names of a directory, `OSError` on anything else. -/
def FS.listdirE (fs : FS) (p : FPath) : Except PyErr (List String) :=
  match fs.lookup p with
  | some (.dir es) => .ok (es.map Prod.fst)
  | _ => .error .osError

/-! ## Count retrieval (`retrive_single_count`, lines 184–224) -/

/-- The result rows of a database query: the connection is modelled as a map
from the query string to its result set. -/
abbrev DB := String → List (List ℤ)

/-- Python `template % date` for a template with one string placeholder. -/
def substDate (template date : String) : String :=
  template.replace "%s" date

/-- `for result in curs: count = result[0]` with accumulator `count`:
each row overwrites `count` with its first column, so the last row wins;
an empty row raises `IndexError`. -/
def runQueryLoop (count : ℤ) : List (List ℤ) → Except PyErr ℤ
  | [] => .ok count
  | r :: rest =>
    match r with
    | [] => .error PyErr.indexError
    | x :: _ => runQueryLoop x rest

/-- The `psql` branch's cursor loop, started from `count = 0` (line 186). -/
def runQuery (rows : List (List ℤ)) : Except PyErr ℤ :=
  runQueryLoop 0 rows

/-- One metric definition (an entry of `counts.SENSOR_COUNT_DEFINITIONS`):
`type` selects the strategy, `path`/`regex` serve the directory strategies,
`query` the database strategy, and `parent` names the percentage denominator
metric. -/
structure MetricDef where
  type : String
  path : FPath := ⟨true, []⟩
  regex : Regex := .emptyset
  query : String := ""
  parent : Option String := none

/-- The `for date_content in os.listdir(date_dir)` loop of the `regex`
branch.  Faithful to the source, `os.path.isdir(date_content)` is asked about
the bare entry name — a relative path, resolved against the working
directory — not about `date_dir/date_content`. -/
def regexCountEntries (fs : FS) (dateDir : FPath) (r : Regex) :
    List String → Except PyErr ℤ
  | [] => .ok 0
  | name :: rest =>
    if fs.isdir ⟨false, [name]⟩ then
      match fs.listdirE (dateDir.join name) with
      | .error e => .error e
      | .ok files =>
        (regexCountEntries fs dateDir r rest).map
          (fun c => (files.countP (fun f => rematch r f.data) : ℤ) + c)
    else
      (regexCountEntries fs dateDir r rest).map
        (fun c => (if rematch r name.data then 1 else 0) + c)

/-- `retrive_single_count(target_count, target_def, date, conn)`:
dispatch on `target_def["type"]`; `target_count` is only used for logging. -/
def retrive_single_count (fs : FS) (db : DB) (target_count : String)
    (target_def : MetricDef) (date : String) : Except PyErr ℤ :=
  if target_def.type = "timestamp" then
    if fs.pexists (target_def.path.join date) then
      (fs.listdirE (target_def.path.join date)).map (fun es => (es.length : ℤ))
    else .ok 0
  else if target_def.type = "plot" then
    if fs.pexists (target_def.path.join date) then
      (fs.listdirE (target_def.path.join date)).map (fun es => (es.length : ℤ))
    else .ok 0
  else if target_def.type = "regex" then
    if fs.pexists (target_def.path.join date) then
      match fs.listdirE (target_def.path.join date) with
      | .error e => .error e
      | .ok entries =>
        regexCountEntries fs (target_def.path.join date) target_def.regex entries
    else .ok 0
  else if target_def.type = "psql" then
    runQuery (db (substDate target_def.query date))
  else .ok 0

/-! ## Dataframe model and update orchestration (`update_file_count_csvs`) -/

/-- A cell of the per-sensor table: a count (integer) or a percentage. -/
inductive Val where
  | int (z : ℤ) : Val
  | rat (q : ℚ) : Val
deriving DecidableEq

/-- One dataframe row: the `date` cell plus the metric (and percentage)
cells in registry order. -/
structure Row where
  date : String
  vals : List Val
deriving DecidableEq

abbrev Table := List Row

/-- A sensor's ordered metric definitions (`count_defs[sensor]`). -/
abbrev Targets := List (String × MetricDef)

/-- The percentage expression of lines 264–267: `child/parent` when the
parent count is positive, else exactly `0.0`. -/
def derivePct (child parentCount : ℤ) : ℚ :=
  if 0 < parentCount then (child : ℚ) / (parentCount : ℚ) else 0

/-- The per-date metric loop (lines 258–267): fill the `counts` memo and the
`percentages` dict, in registry order.  When a metric declares a parent whose
count is not yet memoised, the source calls the 4-parameter
`retrive_single_count` with only 3 positional arguments
(`retrive_single_count(targets[target_def["parent"]], current_date, conn)`),
which raises `TypeError` (after `targets[...]` raises `KeyError` if the
parent is not a defined metric). -/
def computeCounts (fs : FS) (db : DB) (targets : Targets) (date : String) :
    List (String × MetricDef) → List (String × ℤ) → List (String × ℚ) →
    Except PyErr (List (String × ℤ) × List (String × ℚ))
  | [], cs, ps => .ok (cs, ps)
  | (name, tdef) :: rest, cs, ps =>
    match retrive_single_count fs db name tdef date with
    | .error e => .error e
    | .ok c =>
      let cs' := insertA cs name c
      match tdef.parent with
      | none => computeCounts fs db targets date rest cs' ps
      | some par =>
        match lookupA cs' par with
        | some pc =>
          computeCounts fs db targets date rest cs' (insertA ps name (derivePct c pc))
        | none =>
          match lookupA targets par with
          | none => .error PyErr.keyError
          | some _ => .error PyErr.typeError

/-- Build the row written for one date (`updated_entry`/`new_entry`,
lines 272–277 and 282–292): the date, then per metric its count and, when a
parent is declared, its percentage. -/
def buildRow (targets : Targets) (date : String)
    (cs : List (String × ℤ)) (ps : List (String × ℚ)) : Row :=
  ⟨date, targets.foldr
    (fun nt acc =>
      Val.int ((lookupA cs nt.1).getD 0) ::
        (match nt.2.parent with
         | some _ => Val.rat ((lookupA ps nt.1).getD 0) :: acc
         | none => acc))
    []⟩

/-- The whole computation for one date of one sensor: memo pass then row. -/
def computeRow (fs : FS) (db : DB) (targets : Targets) (date : String) :
    Except PyErr Row :=
  match computeCounts fs db targets date targets [] [] with
  | .error e => .error e
  | .ok (cs, ps) => .ok (buildRow targets date cs ps)

/-- Lines 269–293: if a row for this date exists, overwrite every such row in
place (`df.loc[df['date'] == current_date] = updated_entry`); otherwise
append a new row. -/
def upsertRow (df : Table) (row : Row) : Table :=
  if df.any (fun r => r.date = row.date) then
    df.map (fun r => if r.date = row.date then row else r)
  else df ++ [row]

/-- Lexicographic order on the character lists of two strings; on
`YYYY-MM-DD` date keys this is the chronological order that
`pd.to_datetime` + `sort_values` produce. -/
def charListLe : List Char → List Char → Bool
  | [], _ => true
  | _ :: _, [] => false
  | c1 :: t1, c2 :: t2 =>
    if c1 = c2 then charListLe t1 t2
    else decide (c1.val.toNat < c2.val.toNat)

def dateLe (a b : String) : Bool :=
  charListLe a.data b.data

def insertRowSorted (row : Row) : Table → Table
  | [] => [row]
  | r :: rest =>
    if dateLe row.date r.date then row :: r :: rest
    else r :: insertRowSorted row rest

def sortByDate (df : Table) : Table :=
  df.foldr insertRowSorted []

/-- Lines 254–293: the per-sensor date loop over `dates_to_check`. -/
def processDates (fs : FS) (db : DB) (targets : Targets) :
    List String → Table → Except PyErr Table
  | [], df => .ok df
  | date :: rest, df =>
    match computeRow fs db targets date with
    | .error e => .error e
    | .ok row => processDates fs db targets rest (upsertRow df row)

/-- Lines 240–298 for one sensor: load-or-create is done by the caller; here,
process all dates then sort and (conceptually) rewrite the CSV. -/
def updateTable (fs : FS) (db : DB) (targets : Targets) (dates : List String)
    (df : Table) : Except PyErr Table :=
  match processDates fs db targets dates df with
  | .error e => .error e
  | .ok df' => .ok (sortByDate df')

/-- The process state: the `SCAN_LOCK` global and the per-sensor CSV files. -/
structure SysState where
  lock : Bool
  csvs : List (String × Table)

/-- The sensor loop (lines 236–298).  On an uncaught exception the loop
aborts; the error carries the state at the moment of propagation (CSV files
already written stay written, and the lock keeps its current value). -/
def processSensors (defs : List (String × Targets)) (fs : FS) (db : DB)
    (dates : List String) : List String → SysState → Except (PyErr × SysState) SysState
  | [], st => .ok st
  | sensor :: rest, st =>
    match lookupA defs sensor with
    | none => .error (PyErr.keyError, st)
    | some targets =>
      let df := (lookupA st.csvs sensor).getD []
      match updateTable fs db targets dates df with
      | .error e => .error (e, st)
      | .ok df' =>
        processSensors defs fs db dates rest { st with csvs := insertA st.csvs sensor df' }

/-- `update_file_count_csvs(sensor_list, dates_to_check, conn)` from the
point where the scan lock is taken (line 235) to the end of the function:
set `SCAN_LOCK = True`, run the sensor loop, and — only when the loop
finishes normally — execute the final statement `SCAN_LOCK = False`
(line 300).  There is no `try/finally`: a propagating exception skips the
reset and leaves the lock set. -/
def update_file_count_csvs (defs : List (String × Targets)) (fs : FS) (db : DB)
    (sensor_list : List String) (dates_to_check : List String) (st : SysState) :
    Except (PyErr × SysState) SysState :=
  match processSensors defs fs db dates_to_check sensor_list { st with lock := true } with
  | .error e => .error e
  | .ok st2 => .ok { st2 with lock := false }

/-- The value of `SCAN_LOCK` after a sweep, on either exit path. -/
def resultLock : Except (PyErr × SysState) SysState → Bool
  | .ok st => st.lock
  | .error (_, st) => st.lock

/-- Did the sweep end by a propagating exception? -/
def isFailure {ε α : Type} : Except ε α → Bool
  | .ok _ => false
  | .error _ => true

/-! ## Date range generation (`generate_dates_in_range`, lines 49–63) -/

/-- `generate_dates_in_range(start, end)` at the level of day ordinals: the
`strptime('%Y-%m-%d')` results are midnights, so `(end - start).days` is the
exact ordinal difference, and `start + timedelta(days=i)` is `start + i`.
`range(0, days_between + 1)` is empty when `days_between + 1 ≤ 0`. -/
def generate_dates_in_range (startOrd endOrd : ℤ) : List ℤ :=
  (List.range (endOrd - startOrd + 1).toNat).map (fun (i : ℕ) => startOrd + (i : ℤ))

/-! ## Helper lemmas about the table operations -/

theorem upsertRow_self_mem (df : Table) (row : Row) : row ∈ upsertRow df row := by
  unfold upsertRow
  by_cases h : df.any (fun r => r.date = row.date)
  · rw [if_pos h]
    obtain ⟨r, hr, hd⟩ := List.any_eq_true.mp h
    exact List.mem_map.mpr ⟨r, hr, by rw [if_pos (of_decide_eq_true hd)]⟩
  · rw [if_neg h]
    exact List.mem_append_right _ (List.mem_singleton_self row)

theorem upsertRow_all_eq (df : Table) (row : Row) :
    ∀ r ∈ upsertRow df row, r.date = row.date → r = row := by
  intro r hr hd
  unfold upsertRow at hr
  by_cases h : df.any (fun r => r.date = row.date)
  · rw [if_pos h] at hr
    obtain ⟨r0, hr0, heq⟩ := List.mem_map.mp hr
    by_cases h0 : r0.date = row.date
    · rw [if_pos h0] at heq; exact heq.symm
    · rw [if_neg h0] at heq
      exact absurd (heq ▸ hd) h0
  · rw [if_neg h] at hr
    rcases List.mem_append.mp hr with hr' | hr'
    · exact absurd (List.any_eq_true.mpr ⟨r, hr', decide_eq_true hd⟩) h
    · exact List.mem_singleton.mp hr'

theorem mem_upsertRow_iff (df : Table) (row r : Row) (hne : r.date ≠ row.date) :
    r ∈ upsertRow df row ↔ r ∈ df := by
  unfold upsertRow
  by_cases h : df.any (fun r => r.date = row.date)
  · rw [if_pos h]
    constructor
    · intro hr
      obtain ⟨r0, hr0, heq⟩ := List.mem_map.mp hr
      by_cases h0 : r0.date = row.date
      · rw [if_pos h0] at heq
        exact absurd (heq ▸ rfl : r.date = row.date) hne
      · rw [if_neg h0] at heq
        exact heq ▸ hr0
    · intro hr
      refine List.mem_map.mpr ⟨r, hr, ?_⟩
      rw [if_neg hne]
  · rw [if_neg h]
    constructor
    · intro hr
      rcases List.mem_append.mp hr with hr' | hr'
      · exact hr'
      · exact absurd (List.mem_singleton.mp hr' ▸ rfl : r.date = row.date) hne
    · intro hr
      exact List.mem_append_left _ hr

theorem upsertRow_map_date (df : Table) (row : Row) :
    (upsertRow df row).map (fun r => r.date) =
      if df.any (fun r => r.date = row.date) then df.map (fun r => r.date)
      else df.map (fun r => r.date) ++ [row.date] := by
  unfold upsertRow
  by_cases h : df.any (fun r => r.date = row.date)
  · rw [if_pos h, if_pos h, List.map_map]
    refine List.map_congr_left ?_
    intro r _
    by_cases h0 : r.date = row.date
    · simp only [Function.comp, if_pos h0]
      exact h0.symm
    · simp only [Function.comp, if_neg h0]
  · rw [if_neg h, if_neg h, List.map_append]
    rfl

theorem upsertRow_nodup_dates (df : Table) (row : Row)
    (h : (df.map (fun r => r.date)).Nodup) :
    ((upsertRow df row).map (fun r => r.date)).Nodup := by
  rw [upsertRow_map_date]
  by_cases hc : df.any (fun r => r.date = row.date)
  · rw [if_pos hc]; exact h
  · rw [if_neg hc]
    rw [List.nodup_append]
    refine ⟨h, List.nodup_singleton _, ?_⟩
    intro d hd hd'
    rw [List.mem_singleton] at hd'
    obtain ⟨r, hr, hrd⟩ := List.mem_map.mp hd
    exact hc (List.any_eq_true.mpr ⟨r, hr, decide_eq_true (hrd.trans hd')⟩)

theorem computeRow_date (fs : FS) (db : DB) (targets : Targets) (date : String)
    (r : Row) (h : computeRow fs db targets date = .ok r) : r.date = date := by
  unfold computeRow at h
  cases hc : computeCounts fs db targets date targets [] [] with
  | error e => rw [hc] at h; exact Except.noConfusion h
  | ok v =>
    rw [hc] at h
    cases h
    rfl

theorem processDates_nodup_dates (fs : FS) (db : DB) (targets : Targets) :
    ∀ (ds : List String) (df df' : Table),
      processDates fs db targets ds df = .ok df' →
      (df.map (fun r => r.date)).Nodup → (df'.map (fun r => r.date)).Nodup := by
  intro ds
  induction ds with
  | nil =>
    intro df df' h hnd
    cases h
    exact hnd
  | cons d rest ih =>
    intro df df' h hnd
    unfold processDates at h
    cases hc : computeRow fs db targets d with
    | error e => rw [hc] at h; exact Except.noConfusion h
    | ok row =>
      rw [hc] at h
      exact ih (upsertRow df row) df' h (upsertRow_nodup_dates df row hnd)

theorem processDates_mem_iff (fs : FS) (db : DB) (targets : Targets) :
    ∀ (ds : List String) (df df' : Table) (r : Row),
      processDates fs db targets ds df = .ok df' →
      r.date ∉ ds → (r ∈ df' ↔ r ∈ df) := by
  intro ds
  induction ds with
  | nil =>
    intro df df' r h _
    cases h
    exact Iff.rfl
  | cons d rest ih =>
    intro df df' r h hd
    unfold processDates at h
    cases hc : computeRow fs db targets d with
    | error e => rw [hc] at h; exact Except.noConfusion h
    | ok row =>
      rw [hc] at h
      have hd1 : r.date ≠ d := fun hh => hd (hh ▸ List.mem_cons_self d rest)
      have hd2 : r.date ∉ rest := fun hh => hd (List.mem_cons_of_mem d hh)
      have hrow : row.date = d := computeRow_date fs db targets d row hc
      have h1 := ih (upsertRow df row) df' r h hd2
      rw [h1, mem_upsertRow_iff df row r (by rw [hrow]; exact hd1)]

theorem processDates_rows_eq (fs : FS) (db : DB) (targets : Targets) :
    ∀ (ds : List String) (df df' : Table) (d : String),
      processDates fs db targets ds df = .ok df' →
      d ∈ ds →
      (∀ r ∈ df', r.date = d → computeRow fs db targets d = .ok r) ∧
        (∃ r ∈ df', r.date = d) := by
  intro ds
  induction ds with
  | nil =>
    intro df df' d _ hd
    exact absurd hd (List.not_mem_nil d)
  | cons d0 rest ih =>
    intro df df' d h hd
    unfold processDates at h
    cases hc : computeRow fs db targets d0 with
    | error e => rw [hc] at h; exact Except.noConfusion h
    | ok row =>
      rw [hc] at h
      by_cases hdr : d ∈ rest
      · exact ih (upsertRow df row) df' d h hdr
      · have hdd0 : d = d0 := by
          rcases List.mem_cons.mp hd with h' | h'
          · exact h'
          · exact absurd h' hdr
        subst hdd0
        have hrow : row.date = d := computeRow_date fs db targets d row hc
        constructor
        · intro r hr hrd
          have hmem : r ∈ upsertRow df row :=
            (processDates_mem_iff fs db targets rest (upsertRow df row) df' r h
              (by rw [hrd]; exact hdr)).mp hr
          have : r = row := upsertRow_all_eq df row r hmem (by rw [hrd, hrow])
          rw [this]
          exact hc
        · refine ⟨row, ?_, hrow⟩
          exact (processDates_mem_iff fs db targets rest (upsertRow df row) df' row h
            (by rw [hrow]; exact hdr)).mpr (upsertRow_self_mem df row)

theorem insertRowSorted_perm (row : Row) (l : Table) :
    (insertRowSorted row l).Perm (row :: l) := by
  induction l with
  | nil => exact List.Perm.refl _
  | cons r rest ih =>
    unfold insertRowSorted
    by_cases h : dateLe row.date r.date = true
    · rw [if_pos h]
    · rw [if_neg h]
      exact (ih.cons r).trans (List.Perm.swap row r rest)

theorem sortByDate_perm (df : Table) : (sortByDate df).Perm df := by
  induction df with
  | nil => exact List.Perm.refl _
  | cons r rest ih =>
    exact (insertRowSorted_perm r (sortByDate rest)).trans (ih.cons r)

theorem mem_sortByDate (df : Table) (r : Row) : r ∈ sortByDate df ↔ r ∈ df :=
  (sortByDate_perm df).mem_iff

theorem sortByDate_nodup_dates (df : Table)
    (h : (df.map (fun r => r.date)).Nodup) :
    ((sortByDate df).map (fun r => r.date)).Nodup :=
  (((sortByDate_perm df).map (fun r => r.date)).nodup_iff).mpr h

theorem updateTable_ok_inv (fs : FS) (db : DB) (targets : Targets)
    (ds : List String) (df t : Table) (h : updateTable fs db targets ds df = .ok t) :
    ∃ df', processDates fs db targets ds df = .ok df' ∧ t = sortByDate df' := by
  unfold updateTable at h
  cases hc : processDates fs db targets ds df with
  | error e => rw [hc] at h; exact Except.noConfusion h
  | ok df' =>
    rw [hc] at h
    cases h
    exact ⟨df', rfl, rfl⟩

theorem updateTable_nodup_dates (fs : FS) (db : DB) (targets : Targets)
    (ds : List String) (df t : Table) (h : updateTable fs db targets ds df = .ok t)
    (hnd : (df.map (fun r => r.date)).Nodup) :
    (t.map (fun r => r.date)).Nodup := by
  obtain ⟨df', h1, rfl⟩ := updateTable_ok_inv fs db targets ds df t h
  exact sortByDate_nodup_dates df' (processDates_nodup_dates fs db targets ds df df' h1 hnd)

theorem updateTable_rows_eq (fs : FS) (db : DB) (targets : Targets)
    (ds : List String) (df t : Table) (d : String)
    (h : updateTable fs db targets ds df = .ok t) (hd : d ∈ ds) :
    (∀ r ∈ t, r.date = d → computeRow fs db targets d = .ok r) ∧
      (∃ r ∈ t, r.date = d) := by
  obtain ⟨df', h1, rfl⟩ := updateTable_ok_inv fs db targets ds df t h
  obtain ⟨hall, r, hr, hrd⟩ := processDates_rows_eq fs db targets ds df df' d h1 hd
  exact ⟨fun r hr hrd => hall r ((mem_sortByDate df' r).mp hr) hrd,
    r, (mem_sortByDate df' r).mpr hr, hrd⟩

/-! ## Helper lemmas: date range, query loop, scan lock -/

theorem generate_dates_mem (s e d : ℤ) :
    d ∈ generate_dates_in_range s e ↔ s ≤ d ∧ d ≤ e := by
  unfold generate_dates_in_range
  simp only [List.mem_map, List.mem_range]
  constructor
  · rintro ⟨i, hi, rfl⟩
    omega
  · rintro ⟨h1, h2⟩
    refine ⟨(d - s).toNat, ?_, ?_⟩ <;> omega

theorem generate_dates_sorted (s e : ℤ) :
    (generate_dates_in_range s e).Pairwise (· < ·) := by
  unfold generate_dates_in_range
  exact List.Pairwise.map _ (fun a b h => by omega) (List.pairwise_lt_range _)

theorem generate_dates_length (s e : ℤ) (h : s ≤ e) :
    (generate_dates_in_range s e).length = (e - s).toNat + 1 := by
  unfold generate_dates_in_range
  rw [List.length_map, List.length_range]
  omega

theorem generate_dates_empty (s e : ℤ) (h : e < s) :
    generate_dates_in_range s e = [] := by
  unfold generate_dates_in_range
  have h0 : (e - s + 1).toNat = 0 := by omega
  rw [h0]
  rfl

/-- "The first column of the last result row; 0 when there are no rows." -/
def lastRowFirstCol : List (List ℤ) → ℤ
  | [] => 0
  | [r] => r.headD 0
  | _ :: r :: rest => lastRowFirstCol (r :: rest)

theorem runQueryLoop_last (rows : List (List ℤ)) :
    ∀ acc : ℤ, (∀ r ∈ rows, r ≠ []) → rows ≠ [] →
      runQueryLoop acc rows = .ok (lastRowFirstCol rows) := by
  induction rows with
  | nil => intro acc _ h; exact absurd rfl h
  | cons r rest ih =>
    intro acc hne _
    cases hr : r with
    | nil => exact absurd hr (hne r (List.mem_cons_self _ _))
    | cons x xs =>
      subst hr
      cases rest with
      | nil => rfl
      | cons r2 rest2 =>
        have step := ih x (fun r hr => hne r (List.mem_cons_of_mem _ hr)) (by simp)
        simpa only [runQueryLoop, lastRowFirstCol] using step

theorem runQuery_last (rows : List (List ℤ)) (hne : ∀ r ∈ rows, r ≠ []) :
    runQuery rows = .ok (lastRowFirstCol rows) := by
  cases rows with
  | nil => rfl
  | cons r rest => exact runQueryLoop_last (r :: rest) 0 hne (by simp)

theorem update_ok_lock (defs : List (String × Targets)) (fs : FS) (db : DB)
    (sl ds : List String) (st st' : SysState)
    (h : update_file_count_csvs defs fs db sl ds st = .ok st') : st'.lock = false := by
  unfold update_file_count_csvs at h
  cases hc : processSensors defs fs db ds sl { st with lock := true } with
  | error e => rw [hc] at h; exact Except.noConfusion h
  | ok st2 => rw [hc] at h; cases h; rfl

/-! ## Concrete fixtures for claim instances -/

/-- Demo filesystem:
`/data/envlog/2021-01-01/{a.jpg, b.jpg, c.txt}` (flat per-date files),
`/data/nested/2021-01-01/ts1/a.csv` (a nested per-timestamp level), and
`/data/plots/2021-01-01/{foo_bar.csv, xfoo.csv}`.  The working directory is
the filesystem root, which has no entry named like any of the nested
directory names. -/
def demoRoot : FSNode :=
  .dir [("data", .dir
    [("envlog", .dir [("2021-01-01", .dir
      [("a.jpg", .file), ("b.jpg", .file), ("c.txt", .file)])]),
     ("nested", .dir [("2021-01-01", .dir
      [("ts1", .dir [("a.csv", .file)])])]),
     ("plots", .dir [("2021-01-01", .dir
      [("foo_bar.csv", .file), ("xfoo.csv", .file)])])])]

def demoFS : FS := ⟨demoRoot, []⟩

def emptyDB : DB := fun _ => []

/-- The spec's `envlog` scenario: a listing metric and a regex metric
declaring it as parent. -/
def demoTargets : Targets :=
  [("images", { type := "timestamp", path := ⟨true, ["data", "envlog"]⟩ }),
   ("jpgs", { type := "regex", path := ⟨true, ["data", "envlog"]⟩,
              regex := .concat (.star .any) (Regex.lit ".jpg"),
              parent := some "images" })]

/-- A registry whose first metric declares a parent defined only later in
registry order, so the parent count is not yet memoised when the percentage
is formed. -/
def orphanTargets : Targets :=
  [("child", { type := "timestamp", path := ⟨true, ["data", "missing"]⟩,
               parent := some "par" }),
   ("par", { type := "timestamp", path := ⟨true, ["data", "missing"]⟩ })]

/-- Regex metric over the nested layout, counting entries matching `a`. -/
def nestedDef : MetricDef :=
  { type := "regex", path := ⟨true, ["data", "nested"]⟩, regex := Regex.lit "a" }

/-- Regex metric over the flat layout with pattern `foo`. -/
def fooDef : MetricDef :=
  { type := "regex", path := ⟨true, ["data", "plots"]⟩, regex := Regex.lit "foo" }

/-- A psql metric with one date placeholder in its query template. -/
def psqlDef : MetricDef :=
  { type := "psql", query := "SELECT count(*) FROM files WHERE date = %s" }

/-- A database handle answering every query with two single-column rows. -/
def twoRowDB : DB := fun _ => [[5], [7]]

/-- A registry with a single listing metric and no parents: its rows hold
only integer cells, so concrete runs are kernel-computable. -/
def simpleTargets : Targets :=
  [("images", { type := "timestamp", path := ⟨true, ["data", "envlog"]⟩ })]

def simpleRow1 : Row := ⟨"2021-01-01", [.int 3]⟩
def simpleRow2 : Row := ⟨"2021-01-02", [.int 0]⟩
def simpleOldRow : Row := ⟨"2020-12-31", [.int 9]⟩

/-! ## Claim theorems -/

/-- C1 (counterexample): the Scan Lock is NOT cleared on every exit path.
On the concrete registry `orphanTargets` the sweep aborts with a `TypeError`
(line 263's 3-argument call) and, because line 300 (`SCAN_LOCK = False`) is
skipped by the propagating exception, the lock is still held afterwards. -/
theorem c1_scan_lock_left_held :
    isFailure (update_file_count_csvs [("s", orphanTargets)] demoFS emptyDB
      ["s"] ["2021-01-01"] ⟨false, []⟩) = true ∧
    resultLock (update_file_count_csvs [("s", orphanTargets)] demoFS emptyDB
      ["s"] ["2021-01-01"] ⟨false, []⟩) = true :=
  ⟨by decide, by decide⟩

/-- C1 (amended): the Scan Lock flag is cleared whenever
`update_file_count_csvs` completes normally; on an exceptional exit it may
remain held. -/
theorem c1_scan_lock_cleared_on_normal_completion
    (defs : List (String × Targets)) (fs : FS) (db : DB)
    (sensor_list dates : List String) (st st' : SysState)
    (h : update_file_count_csvs defs fs db sensor_list dates st = .ok st') :
    st'.lock = false :=
  update_ok_lock defs fs db sensor_list dates st st' h

theorem c1_scan_lock_cleared_witness :
    (SysState.mk false [] : SysState).lock = false :=
  c1_scan_lock_cleared_on_normal_completion [] demoFS emptyDB [] []
    ⟨true, []⟩ ⟨false, []⟩ rfl

/-- C2 (counterexample): for a `psql` metric whose query returns the rows
`[[5], [7]]`, retrieval returns `7` — the first column of the LAST result
row — not `5`, the first column of the first row as claimed. -/
theorem c2_psql_returns_last_not_first :
    retrive_single_count demoFS twoRowDB "m" psqlDef "2021-01-01" = .ok 7 ∧
    (7 : ℤ) ≠ 5 :=
  ⟨by decide, by decide⟩

/-- C2 (amended): for a metric of the query (`psql`) type, retrieval
substitutes the date into the query template, executes it on the shared
connection, and returns the first column of the LAST result row (each
returned row having at least one column); if the query returns no rows, it
returns 0 (`lastRowFirstCol [] = 0`). -/
theorem c2_psql_last_row_first_column (fs : FS) (db : DB) (name : String)
    (tdef : MetricDef) (date : String) (htype : tdef.type = "psql")
    (hne : ∀ r ∈ db (substDate tdef.query date), r ≠ []) :
    retrive_single_count fs db name tdef date =
      .ok (lastRowFirstCol (db (substDate tdef.query date))) := by
  unfold retrive_single_count
  rw [htype]
  rw [if_neg (by decide), if_neg (by decide), if_neg (by decide), if_pos rfl]
  exact runQuery_last _ hne

theorem c2_psql_last_row_witness :
    retrive_single_count demoFS twoRowDB "w" psqlDef "2021-01-02" =
      .ok (lastRowFirstCol (twoRowDB (substDate psqlDef.query "2021-01-02"))) :=
  c2_psql_last_row_first_column demoFS twoRowDB "w" psqlDef "2021-01-02" rfl
    (by decide)

/-- C3 (code bug): when a metric's declared parent is not already in the
date's memo of counts, the source calls the 4-parameter
`retrive_single_count` with only 3 positional arguments (line 263), raising
`TypeError` instead of computing the parent's count on demand.  Evaluated
here on a registry whose first metric's parent appears later in registry
order. -/
theorem c3_parent_on_demand_raises_type_error :
    computeRow demoFS emptyDB orphanTargets "2021-01-01" =
      .error PyErr.typeError := by
  decide

/-- C4 (code bug): for a regex metric on the existing date directory
`/data/nested/2021-01-01`, whose only entry `ts1` is a subdirectory holding
`a.csv`, retrieval returns 0: line 205 asks `os.path.isdir("ts1")` about the
bare entry name — resolved against the working directory, where no `ts1`
exists — so the subdirectory is treated as a plain file and matched (as a
name) against the pattern, instead of having its file entries scanned.  The
claimed behaviour would count the matching nested file `a.csv` and return
1. -/
theorem c4_regex_nested_dir_miscounted :
    retrive_single_count demoFS emptyDB "m" nestedDef "2021-01-01" = .ok 0 ∧
    rematch (Regex.lit "a") "a.csv".data = true ∧
    (0 : ℤ) ≠ 1 :=
  ⟨by decide, by decide, by decide⟩

/-- C5: starting from a table with at most one row per date key, after one
update pass (and again after a second pass over an overlapping date list)
the table still has at most one row per date key; and every processed date
ends up with exactly one row — present, and carrying precisely the freshly
computed values (full overwrite). -/
theorem c5_one_row_per_date (fs : FS) (db : DB) (targets : Targets)
    (ds1 ds2 : List String) (df t1 t2 : Table)
    (hnd : (df.map (fun r => r.date)).Nodup)
    (h1 : updateTable fs db targets ds1 df = .ok t1)
    (h2 : updateTable fs db targets ds2 t1 = .ok t2) :
    (t1.map (fun r => r.date)).Nodup ∧
    (t2.map (fun r => r.date)).Nodup ∧
    ∀ d ∈ ds2, (∃ r ∈ t2, r.date = d) ∧
      ∀ r ∈ t2, r.date = d → computeRow fs db targets d = .ok r := by
  have n1 := updateTable_nodup_dates fs db targets ds1 df t1 h1 hnd
  have n2 := updateTable_nodup_dates fs db targets ds2 t1 t2 h2 n1
  refine ⟨n1, n2, fun d hd => ?_⟩
  obtain ⟨hall, hex⟩ := updateTable_rows_eq fs db targets ds2 t1 t2 d h2 hd
  exact ⟨hex, hall⟩

theorem c5_one_row_per_date_witness :
    (([simpleRow1] : Table).map (fun r => r.date)).Nodup ∧
    (([simpleRow1, simpleRow2] : Table).map (fun r => r.date)).Nodup ∧
    ∀ d ∈ ["2021-01-01", "2021-01-02"],
      (∃ r ∈ ([simpleRow1, simpleRow2] : Table), r.date = d) ∧
      ∀ r ∈ ([simpleRow1, simpleRow2] : Table), r.date = d →
        computeRow demoFS emptyDB simpleTargets d = .ok r :=
  c5_one_row_per_date demoFS emptyDB simpleTargets ["2021-01-01"]
    ["2021-01-01", "2021-01-02"] [] [simpleRow1] [simpleRow1, simpleRow2]
    (by decide) (by decide) (by decide)

/-- C6: percentage derivation never divides by zero: a parent count of 0
yields exactly 0, and a positive parent count yields child/parent.  This is
the expression of lines 264–267, used verbatim inside `computeCounts`. -/
theorem c6_percentage_derivation (child parentCount : ℤ) :
    (parentCount = 0 → derivePct child parentCount = 0) ∧
    (0 < parentCount →
      derivePct child parentCount = (child : ℚ) / (parentCount : ℚ)) := by
  constructor
  · intro h
    subst h
    simp [derivePct]
  · intro h
    simp [derivePct, h]

theorem c6_percentage_derivation_witness :
    derivePct 3 0 = 0 ∧ derivePct 3 2 = ((3 : ℤ) : ℚ) / ((2 : ℤ) : ℚ) :=
  ⟨(c6_percentage_derivation 3 0).1 rfl, (c6_percentage_derivation 3 2).2 (by decide)⟩

/-- C7: for the listing (`timestamp`/`plot`) and `regex` metric types, when
`source_path/date_key` does not exist, retrieval returns 0 and signals no
error. -/
theorem c7_missing_date_dir_returns_zero (fs : FS) (db : DB) (name : String)
    (tdef : MetricDef) (date : String)
    (htype : tdef.type = "timestamp" ∨ tdef.type = "plot" ∨ tdef.type = "regex")
    (hmiss : fs.lookup (tdef.path.join date) = none) :
    retrive_single_count fs db name tdef date = .ok 0 := by
  have hex : fs.pexists (tdef.path.join date) = false := by
    unfold FS.pexists
    rw [hmiss]
    rfl
  rcases htype with h | h | h <;> simp [retrive_single_count, h, hex]

theorem c7_missing_date_dir_witness :
    retrive_single_count demoFS emptyDB "m" nestedDef "2021-02-02" = .ok 0 :=
  c7_missing_date_dir_returns_zero demoFS emptyDB "m" nestedDef "2021-02-02"
    (Or.inr (Or.inr rfl)) rfl

/-- C8: at the level of day ordinals (the `strptime` results), the date
range generator returns exactly the inclusive, strictly increasing sequence
of calendar days from start to end: its members are precisely the days
between the endpoints, its length is `(end - start).days + 1` when
`start ≤ end`, and it is empty when `end < start`. -/
theorem c8_date_range_generator (s e : ℤ) :
    (generate_dates_in_range s e).Pairwise (· < ·) ∧
    (∀ d : ℤ, d ∈ generate_dates_in_range s e ↔ s ≤ d ∧ d ≤ e) ∧
    (s ≤ e → (generate_dates_in_range s e).length = (e - s).toNat + 1) ∧
    (e < s → generate_dates_in_range s e = []) :=
  ⟨generate_dates_sorted s e, fun d => generate_dates_mem s e d,
   generate_dates_length s e, generate_dates_empty s e⟩

theorem c8_date_range_generator_witness :
    (generate_dates_in_range 100 102).length = ((102 : ℤ) - 100).toNat + 1 ∧
    generate_dates_in_range 102 100 = [] :=
  ⟨(c8_date_range_generator 100 102).2.2.1 (by decide),
   (c8_date_range_generator 102 100).2.2.2 (by decide)⟩

/-- C9: regex retrieval matches anchored from the start (prefix semantics),
not full-string: `re.match` succeeds exactly when the pattern's language
contains a leading segment of the filename; the filename `foo_bar.csv`
matches pattern `foo` while `xfoo.csv` does not; and on a date directory
holding exactly those two files, retrieval with pattern `foo` counts 1. -/
theorem c9_regex_anchored_at_start :
    (∀ (r : Regex) (s : List Char),
        rematch r s = true ↔ ∃ p q, s = p ++ q ∧ RMatch r p) ∧
    rematch (Regex.lit "foo") "foo_bar.csv".data = true ∧
    rematch (Regex.lit "foo") "xfoo.csv".data = false ∧
    retrive_single_count demoFS emptyDB "m" fooDef "2021-01-01" = .ok 1 :=
  ⟨rematch_iff_exists_split, by decide, by decide, by decide⟩

/-- C10: an update pass leaves rows for unprocessed dates intact: any row of
the existing table whose date is not among the dates being checked is still
a row (with unchanged values) of the rewritten, re-sorted table. -/
theorem c10_unprocessed_rows_preserved (fs : FS) (db : DB) (targets : Targets)
    (dates : List String) (df t : Table) (r : Row)
    (h : updateTable fs db targets dates df = .ok t)
    (hr : r ∈ df) (hd : r.date ∉ dates) : r ∈ t := by
  obtain ⟨df', h1, rfl⟩ := updateTable_ok_inv fs db targets dates df t h
  exact (mem_sortByDate df' r).mpr
    ((processDates_mem_iff fs db targets dates df df' r h1 hd).mpr hr)

theorem c10_unprocessed_rows_witness :
    simpleOldRow ∈ ([simpleOldRow, simpleRow1] : Table) :=
  c10_unprocessed_rows_preserved demoFS emptyDB simpleTargets ["2021-01-01"]
    [simpleOldRow] [simpleOldRow, simpleRow1] simpleOldRow (by decide) (by decide)
    (by decide)
